import Mathlib

set_option maxRecDepth 8000
set_option linter.unusedVariables false

/-!
Verification of the skill-matching engine of the Job-Matcher platform
(`backend/app/services/job_matcher.py` and `backend/app/core/cache.py`).

Strings are embedded as `List Char` (`Str`).  Python `float` score
arithmetic is embedded as exact rationals `ℚ`; the engine rounds every
final score to two decimals, so the concrete values asserted by the spec
are exact rationals.  Python `set`s of strings are embedded as
duplicate-free lists, built with `dedupKeepFirst`; the engine only
consumes cardinality, membership and sorted views of these sets, which
are independent of the representation order.
-/

namespace JobMatcher

abbrev Str := List Char

/-- The bullet glyphs of the `BULLETS` regex alternation
`•|‣|◦|⁃|∙|•|·|●` (deduplicated: `•` = `•`). -/
def BULLET_CHARS : List Char :=
  ['•', '‣', '◦', '⁃', '∙', '·', '●']

def isBullet (c : Char) : Bool := decide (c ∈ BULLET_CHARS)

/-- ASCII fragment of Python `str.lower`; after the character filter the
engine's alphabet is ASCII, so this is the relevant fragment. -/
def lowerChar (c : Char) : Char :=
  if 65 ≤ c.toNat ∧ c.toNat ≤ 90 then Char.ofNat (c.toNat + 32) else c

/-- Whitespace stripped by Python `str.strip` (ASCII fragment). -/
def isPySpace (c : Char) : Bool := c ∈ [' ', '\t', '\n', '\r', '\x0b', '\x0c']

def dropTrailing (s : Str) : Str := (s.reverse.dropWhile isPySpace).reverse

/-- Python `str.strip()`. -/
def pyStrip (s : Str) : Str := dropTrailing (s.dropWhile isPySpace)

/-- `re.sub(BULLETS, " ", s)`: each single bullet glyph becomes a space. -/
def blankBullets (s : Str) : Str := s.map (fun c => if isBullet c then ' ' else c)

/-- `s.replace("&", " and ")`. -/
def expandAmp : Str → Str
  | [] => []
  | c :: r => if c = '&' then ' ' :: 'a' :: 'n' :: 'd' :: ' ' :: expandAmp r
              else c :: expandAmp r

/-- The character class kept by `_norm_token`: letters `a`–`z` (97–122),
digits `0`–`9` (48–57), and `+ # . - /` and space. -/
def isAllowed (c : Char) : Bool :=
  (97 ≤ c.toNat && c.toNat ≤ 122) || (48 ≤ c.toNat && c.toNat ≤ 57) ||
    c ∈ ['+', '#', '.', '-', '/', ' ']

/-- The source's `re.sub` on the complement of `isAllowed` (with a `+`
quantifier) replaces each maximal run of disallowed characters by one space.  Followed by the whitespace collapse
`re.sub(r"\s+", " ", s)` this equals: replace every disallowed character
by a space, then collapse space runs (`collapseSpaces` below); after the
squash a space is the only whitespace character left. -/
def squashDisallowed (s : Str) : Str := s.map (fun c => if isAllowed c then c else ' ')

/-- Collapse runs of spaces to a single space (`re.sub(r"\s+", " ", s)`
on a string whose only whitespace is the space character). -/
def collapseSpaces : Str → Str
  | [] => []
  | [c] => [c]
  | c1 :: c2 :: r =>
      if c1 = ' ' ∧ c2 = ' ' then collapseSpaces (c2 :: r)
      else c1 :: collapseSpaces (c2 :: r)

/-- The character-level pipeline of `_norm_token`, before the alias map:
lower, strip, bullets→space, `&`→`" and "`, drop disallowed, collapse
whitespace, strip. -/
def normPipeline (s : Str) : Str :=
  pyStrip (collapseSpaces (squashDisallowed (expandAmp (blankBullets
    (pyStrip (s.map lowerChar))))))

/-- The `ALIASES` synonym table of `job_matcher.py`. -/
def ALIASES : List (Str × Str) :=
  [ ("react.js".toList, "react".toList)
  , ("reactjs".toList, "react".toList)
  , ("nodejs".toList, "node.js".toList)
  , ("node js".toList, "node.js".toList)
  , ("js".toList, "javascript".toList)
  , ("ts".toList, "typescript".toList)
  , ("postgres".toList, "postgresql".toList)
  , ("mongo".toList, "mongodb".toList)
  , ("k8s".toList, "kubernetes".toList)
  , ("ci cd".toList, "ci/cd".toList)
  , ("dotnet".toList, ".net".toList)
  , ("c sharp".toList, "c#".toList)
  , ("golang".toList, "go".toList)
  , ("aws".toList, "amazon web services".toList)
  , ("gcp".toList, "google cloud platform".toList)
  , ("vue.js".toList, "vue".toList)
  , ("vuejs".toList, "vue".toList)
  , ("angular.js".toList, "angular".toList)
  , ("angularjs".toList, "angular".toList)
  ]

/-- Lookup in a Python-dict-like association list (first matching key). -/
def lookupStr {α : Type} : List (Str × α) → Str → Option α
  | [], _ => none
  | (k, v) :: r, s => if s = k then some v else lookupStr r s

/-- `ALIASES.get(s, s)`. -/
def applyAlias (s : Str) : Str := (lookupStr ALIASES s).getD s

/-- `_norm_token`. -/
def norm_token (s : Str) : Str := applyAlias (normPipeline s)

/-- Delimiters of `re.split(rf"[,\|;/\n\t]+|{BULLETS}", raw)`.  Splitting
on each delimiter occurrence differs from splitting on delimiter runs
only by empty fragments, which every caller discards. -/
def isDelim (c : Char) : Bool := c ∈ [',', '|', ';', '/', '\n', '\t'] || isBullet c

def splitAux : Str → Str → List Str
  | [], acc => [acc.reverse]
  | c :: r, acc => if isDelim c then acc.reverse :: splitAux r [] else splitAux r (c :: acc)

def splitOnDelims (s : Str) : List Str := splitAux s []

/-- Duplicate removal keeping first occurrences: the embedding of a Python
set built by successive insertions. -/
def dedupAux (seen : List Str) : List Str → List Str
  | [] => []
  | x :: r => if x ∈ seen then dedupAux seen r else x :: dedupAux (x :: seen) r

def dedupKeepFirst (l : List Str) : List Str := dedupAux [] l

/-- `_tokenize_skills`. -/
def tokenize_skills (raw : Str) : List Str :=
  if raw = [] then []
  else dedupKeepFirst (((splitOnDelims raw).map norm_token).filter (· ≠ []))

-- quick sanity examples (claims rely on these shapes)
example : norm_token "  Python ".toList = "python".toList := by decide
example : norm_token "AWS".toList = "amazon web services".toList := by decide
example : norm_token "React.JS".toList = "react".toList := by decide
example : tokenize_skills "Python, Django, PostgreSQL, Docker, AWS".toList =
    ["python".toList, "django".toList, "postgresql".toList, "docker".toList,
     "amazon web services".toList] := by decide

/-! ### Substring and word-boundary search -/

/-- Does `pat` occur in `l` starting at index `i`? -/
def matchesAt (pat l : Str) (i : Nat) : Bool := decide ((l.drop i).take pat.length = pat)

/-- Python `pat in text` (plain substring containment). -/
def substrB (pat l : Str) : Bool := (List.range (l.length + 1)).any (fun i => matchesAt pat l i)

/-- Python `text.index(pat)`: index of the first occurrence. -/
def firstIndexOf (pat l : Str) : Option Nat :=
  (List.range (l.length + 1)).find? (fun i => matchesAt pat l i)

/-- Regex word character (ASCII fragment of `\w`). -/
def isWordChar (c : Char) : Bool :=
  (97 ≤ c.toNat && c.toNat ≤ 122) || (65 ≤ c.toNat && c.toNat ≤ 90) ||
    (48 ≤ c.toNat && c.toNat ≤ 57) || c = '_'

/-- Is the character at position `i` (if any) a word character? -/
def headIsWord (l : Str) (i : Nat) : Bool :=
  match l.drop i with
  | [] => false
  | c :: _ => isWordChar c

/-- Regex `\b` holds at position `i`: the word-ness of the characters on
the two sides differs (out of range counts as non-word). -/
def boundaryAt (l : Str) (i : Nat) : Bool :=
  (if i = 0 then false else headIsWord l (i - 1)) != headIsWord l i

/-- `re.search(rf"\b{re.escape(pat)}\b", text)` as a Boolean. -/
def wordSearch (pat text : Str) : Bool :=
  (List.range (text.length + 1)).any
    (fun i => matchesAt pat text i && boundaryAt text i && boundaryAt text (i + pat.length))

/-- Python `s.split(',')` (keeps empty fragments). -/
def splitCommaAux : Str → Str → List Str
  | [], acc => [acc.reverse]
  | c :: r, acc => if c = ',' then acc.reverse :: splitCommaAux r [] else splitCommaAux r (c :: acc)

def splitOnComma (s : Str) : List Str := splitCommaAux s []

/-- Python `s.replace(pat, "")`: delete every non-overlapping occurrence of
`pat`, scanning left to right. -/
def stripSub (pat : Str) : Str → Str
  | [] => []
  | c :: r =>
      if h : pat ≠ [] ∧ matchesAt pat (c :: r) 0 then stripSub pat ((c :: r).drop pat.length)
      else c :: stripSub pat r
  termination_by s => s.length
  decreasing_by
  · simp only [List.length_drop, List.length_cons]
    have : pat.length ≠ 0 := fun hl => h.1 (List.eq_nil_of_length_eq_zero hl)
    omega
  · simp

/-! ### Data model

The nullable text columns of `Job` (`location`, `required_skills`, `url`)
are embedded as `Str` with `[]` for `NULL`: the engine only ever consumes
them through Python truthiness (`if job.location:` …), which identifies
`None` and `""`. -/

structure Job where
  id : Nat
  title : Str
  company : Str
  location : Str
  description : Str
  required_skills : Str
  remote : Bool
  salary_min : Option Int
  salary_max : Option Int
  url : Str
  created_at : Nat
deriving DecidableEq

/-- A `users` row.  Only the id is consulted by the engine: the scorer's
`getattr(user, 'location', '')` always returns `''` because the `User`
model has no `location` column (`models.py`). -/
structure UserRec where
  id : Nat
deriving DecidableEq

/-- A persisted `matches` row. -/
structure MatchRow where
  user_id : Nat
  job_id : Nat
  score : ℚ
deriving DecidableEq

/-- One entry of the matched-jobs result list (the dict built in
`match_jobs_for_user`). -/
structure MatchEntry where
  job_id : Nat
  title : Str
  company : Str
  location : Str
  remote : Bool
  salary_min : Option Int
  salary_max : Option Int
  description : Str
  required_skills : Str
  url : Str
  match_score : ℚ
  match_reasons : List Str
  created_at : Nat
deriving DecidableEq

/-- The relational store as seen by the engine: `users`, `skills`
(user_id, name), `jobs`, `matches` rows. -/
structure DB where
  users : List UserRec
  skills : List (Nat × Str)
  jobs : List Job
  matchRows : List MatchRow   -- the `matches` table
deriving DecidableEq

/-! ### Job-skill extraction -/

/-- `_get_job_skills`: tokenize `required_skills`; if that yields nothing,
scan the description (normalized) for SkillMaster terms with word
boundaries.  `sm` is the normalized SkillMaster vocabulary loaded in
`JobMatcher.__init__`. -/
def get_job_skills (sm : List Str) (job : Job) : List Str :=
  let skills := if job.required_skills ≠ [] then tokenize_skills job.required_skills else []
  if skills = [] ∧ job.description ≠ [] then
    dedupKeepFirst (sm.filter (fun t => wordSearch t (norm_token job.description)))
  else skills

/-- The section markers scanned by `_ordered_job_skills`; the last one is
`what you'll need:` (39 is the apostrophe). -/
def MARKERS : List Str :=
  [ "skills:".toList, "requirements:".toList, "required:".toList,
    "qualifications:".toList, "must have:".toList, "technical skills:".toList,
    "what you".toList ++ [Char.ofNat 39] ++ "ll need:".toList ]

def STOP_WORDS : List Str :=
  ["and".toList, "or".toList, "with".toList, "using".toList, "years".toList,
   "experience".toList]

/-- First marker (in list order) present in `text`, and the 500 characters
of text from its first occurrence. -/
def findMarkerSection (text : Str) : Option Str :=
  match MARKERS.find? (fun m => substrB m text) with
  | none => none
  | some m =>
      match firstIndexOf m text with
      | none => none
      | some idx => some ((text.drop idx).take 500)

/-- The marker-section loop of `_ordered_job_skills`: append each fresh
normalized token of length > 1 that is not a stop word, stopping once the
ordered list reaches 15 entries. -/
def addSectionParts (acc : List Str) : List Str → List Str
  | [] => acc
  | p :: r =>
      let skill := norm_token p
      if skill ≠ [] ∧ skill ∉ acc ∧ 1 < skill.length ∧ skill ∉ STOP_WORDS then
        let acc2 := acc ++ [skill]
        if 15 ≤ acc2.length then acc2 else addSectionParts acc2 r
      else addSectionParts acc r

/-- The last-resort SkillMaster loop of `_ordered_job_skills`: append each
vocabulary term found (with word boundaries) in the normalized
description, stopping once the ordered list reaches 10 entries. -/
def addMasterSkills (textNorm : Str) (acc : List Str) : List Str → List Str
  | [] => acc
  | skl :: r =>
      if skl ∉ acc ∧ wordSearch skl textNorm then
        let acc2 := acc ++ [skl]
        if 10 ≤ acc2.length then acc2 else addMasterSkills textNorm acc2 r
      else addMasterSkills textNorm acc r

/-- `_ordered_job_skills`. -/
def ordered_job_skills (sm : List Str) (job : Job) : List Str :=
  let o1 :=
    if job.required_skills ≠ [] then
      dedupKeepFirst (((splitOnDelims job.required_skills).map norm_token).filter (· ≠ []))
    else []
  if o1.length < 3 ∧ job.description ≠ [] then
    let text := job.description.map lowerChar
    let o2 :=
      match findMarkerSection text with
      | some sec => addSectionParts o1 (splitOnDelims sec)
      | none => o1
    if o2.length < 5 ∧ sm ≠ [] then addMasterSkills (norm_token job.description) o2 sm
    else o2
  else o1

/-! ### Related skills -/

/-- The static `relations` adjacency table of `_find_related_skills`. -/
def RELATIONS : List (Str × List Str) :=
  [ ("python".toList, ["django".toList, "flask".toList, "fastapi".toList, "pandas".toList,
      "numpy".toList, "scikit-learn".toList, "pytorch".toList])
  , ("javascript".toList, ["react".toList, "angular".toList, "vue".toList, "node.js".toList,
      "express".toList, "typescript".toList, "next.js".toList, "jquery".toList])
  , ("typescript".toList, ["javascript".toList, "react".toList, "angular".toList, "node.js".toList])
  , ("java".toList, ["spring".toList, "spring boot".toList, "hibernate".toList, "maven".toList,
      "gradle".toList])
  , ("c#".toList, [".net".toList, "asp.net".toList, "entity framework".toList, "xamarin".toList])
  , (".net".toList, ["c#".toList, "asp.net".toList, "entity framework".toList])
  , ("php".toList, ["laravel".toList, "symfony".toList, "wordpress".toList, "drupal".toList])
  , ("ruby".toList, ["rails".toList, "ruby on rails".toList, "sinatra".toList])
  , ("go".toList, ["golang".toList, "gin".toList, "echo".toList])
  , ("rust".toList, ["actix".toList, "rocket".toList])
  , ("sql".toList, ["postgresql".toList, "mysql".toList, "sqlite".toList, "oracle".toList,
      "sql server".toList])
  , ("postgresql".toList, ["sql".toList, "postgres".toList])
  , ("mysql".toList, ["sql".toList, "mariadb".toList])
  , ("nosql".toList, ["mongodb".toList, "redis".toList, "cassandra".toList, "dynamodb".toList,
      "couchdb".toList])
  , ("mongodb".toList, ["nosql".toList, "mongoose".toList])
  , ("redis".toList, ["nosql".toList, "caching".toList])
  , ("devops".toList, ["docker".toList, "kubernetes".toList, "jenkins".toList, "ci/cd".toList,
      "terraform".toList, "ansible".toList])
  , ("docker".toList, ["kubernetes".toList, "containerization".toList, "devops".toList])
  , ("kubernetes".toList, ["docker".toList, "k8s".toList, "helm".toList, "devops".toList])
  , ("ci/cd".toList, ["jenkins".toList, "github actions".toList, "gitlab ci".toList,
      "circleci".toList, "devops".toList])
  , ("cloud".toList, ["aws".toList, "azure".toList, "gcp".toList, "cloud computing".toList])
  , ("aws".toList, ["cloud".toList, "ec2".toList, "s3".toList, "lambda".toList,
      "dynamodb".toList])
  , ("azure".toList, ["cloud".toList, "azure devops".toList, "cosmos db".toList])
  , ("gcp".toList, ["cloud".toList, "google cloud".toList, "bigquery".toList])
  , ("frontend".toList, ["html".toList, "css".toList, "javascript".toList, "react".toList,
      "angular".toList, "vue".toList, "ui/ux".toList])
  , ("backend".toList, ["api".toList, "rest".toList, "graphql".toList, "microservices".toList,
      "server".toList, "database".toList])
  , ("fullstack".toList, ["frontend".toList, "backend".toList, "database".toList, "api".toList])
  , ("mobile".toList, ["ios".toList, "android".toList, "react native".toList, "flutter".toList,
      "swift".toList, "kotlin".toList])
  , ("ios".toList, ["swift".toList, "objective-c".toList, "xcode".toList, "mobile".toList])
  , ("android".toList, ["kotlin".toList, "java".toList, "android studio".toList, "mobile".toList])
  , ("react native".toList, ["react".toList, "mobile".toList, "javascript".toList])
  , ("flutter".toList, ["dart".toList, "mobile".toList])
  , ("machine learning".toList, ["python".toList, "tensorflow".toList, "pytorch".toList,
      "scikit-learn".toList, "ai".toList])
  , ("data science".toList, ["python".toList, "r".toList, "pandas".toList, "numpy".toList,
      "statistics".toList, "machine learning".toList])
  , ("ai".toList, ["machine learning".toList, "deep learning".toList,
      "neural networks".toList, "python".toList])
  ]

/-- `f"{user_skill}→{related}"`. -/
def relArrowR (a b : Str) : Str := a ++ ['→'] ++ b

/-- `f"{user_skill}←{req_skill}"`. -/
def relArrowL (a b : Str) : Str := a ++ ['←'] ++ b

/-- `_find_related_skills` (the result is a Python set of relation
strings; only its cardinality and sorted view are consumed). -/
def find_related_skills (user_skills required_skills : List Str) : List Str :=
  dedupKeepFirst (user_skills.flatMap (fun us =>
    (match lookupStr RELATIONS us with
     | some rl => (rl.filter (· ∈ required_skills)).map (fun r => relArrowR us r)
     | none => [])
    ++ required_skills.filterMap (fun req =>
        match lookupStr RELATIONS req with
        | some rl => if us ∈ rl then some (relArrowL us req) else none
        | none => none)))

/-! ### Sorting and formatting helpers -/

/-- Lexicographic `<` on strings by code point (Python string order). -/
def strLtB : Str → Str → Bool
  | [], [] => false
  | [], _ :: _ => true
  | _ :: _, [] => false
  | a :: as, b :: bs => if a < b then true else if b < a then false else strLtB as bs

def insertStr (x : Str) : List Str → List Str
  | [] => [x]
  | y :: r => if strLtB y x then y :: insertStr x r else x :: y :: r

/-- Python `sorted` on a list of strings (ascending; the inputs here are
duplicate-free, so stability is irrelevant). -/
def sortStr (l : List Str) : List Str := l.foldr insertStr []

/-- `", ".join(xs)`. -/
def joinComma (xs : List Str) : Str := List.intercalate ", ".toList xs

/-- Decimal digits of a natural number. -/
def natToStr (n : Nat) : Str := Nat.toDigits 10 n

/-- Python `round` to an integer: round half to even. -/
def roundHalfEven (q : ℚ) : ℤ :=
  if q - ⌊q⌋ < 1/2 then ⌊q⌋
  else if (1 : ℚ)/2 < q - ⌊q⌋ then ⌊q⌋ + 1
  else if ⌊q⌋ % 2 = 0 then ⌊q⌋ else ⌊q⌋ + 1

/-- Python `round(x, 2)`. -/
def round2 (q : ℚ) : ℚ := (roundHalfEven (q * 100) : ℚ) / 100

/-- `f"{p:.1f}"` for the nonnegative multiples of 0.1 produced by the
missing-skills penalty. -/
def fmt1 (q : ℚ) : Str :=
  natToStr (⌊q * 10⌋.toNat / 10) ++ ['.'] ++ natToStr (⌊q * 10⌋.toNat % 10)

/-! ### The scoring engine (`_calculate_match_score`) -/

/-- `base_ratio = len(matched) / max(len(job_skills), 1)`. -/
def base_ratio_of (matched job_skills : List Str) : ℚ :=
  (matched.length : ℚ) / (max job_skills.length 1 : ℚ)

/-- Core-coverage bonus: `(len(core_matched) / len(core)) * 18.0` when
`core` is non-empty. -/
def core_bonus (core core_matched : List Str) : ℚ :=
  if core ≠ [] then (core_matched.length : ℚ) / (core.length : ℚ) * 18 else 0

/-- Core-missing penalty: `(len(core_missing) / len(core)) * 15.0`,
subtracted only when some core skill is missing. -/
def core_penalty (core core_missing : List Str) : ℚ :=
  if core ≠ [] ∧ core_missing ≠ [] then (core_missing.length : ℚ) / (core.length : ℚ) * 15
  else 0

/-- Related-skills bonus: `min(6.0, len(related) * 1.5)` when non-empty. -/
def related_add (related : List Str) : ℚ :=
  if related ≠ [] then min 6 ((related.length : ℚ) * (3/2)) else 0

/-- Location bonus (score delta, reasons).  `user_location` is always `''`
because the `User` model has no `location` column, so only the
remote-position branch can fire; the location-match branch is kept for
fidelity. -/
def location_part (job : Job) : ℚ × List Str :=
  if job.location ≠ [] then
    let jl := job.location.map lowerChar
    let user_location : Str := []
    if job.remote || ["remote".toList, "anywhere".toList, "worldwide".toList].any
        (fun t => substrB t jl) then
      (4, ["Remote position".toList])
    else if user_location ≠ [] ∧
        (substrB user_location jl || substrB jl user_location ||
          (splitOnComma user_location).any (fun c => substrB c jl)) then
      (4, ["Location match".toList])
    else (0, [])
  else (0, [])

def SENIOR_KWS : List Str :=
  ["senior".toList, "lead".toList, "principal".toList, "staff".toList, "architect".toList]

def JUNIOR_KWS : List Str :=
  ["junior".toList, "entry".toList, "intern".toList, "graduate".toList, "trainee".toList]

/-- Experience-level bonus/penalty (score delta, reasons): keyword scan of
the lowercased title and first 200 characters of the description. -/
def experience_part (job : Job) (user_skill_count : Nat) : ℚ × List Str :=
  let title := job.title.map lowerChar
  let desc200 := (job.description.map lowerChar).take 200
  if SENIOR_KWS.any (fun k => substrB k title || substrB k desc200) then
    if 15 ≤ user_skill_count then (4, ["Experience level match (Senior)".toList])
    else (-2, [])
  else if JUNIOR_KWS.any (fun k => substrB k title || substrB k desc200) then
    if user_skill_count ≤ 10 then (4, ["Experience level match (Entry/Junior)".toList])
    else (0, [])
  else if 8 ≤ user_skill_count ∧ user_skill_count ≤ 20 then
    (4, ["Experience level match (Mid-level)".toList])
  else (0, [])

/-- Coverage bonus tiers on `base_ratio` (0.85 / 0.70 / 0.50), with the
percentage label `int(base_ratio*100)`. -/
def coverage_part (r : ℚ) : ℚ × List Str :=
  if r ≥ 85/100 then
    (4, ["Excellent skill coverage (".toList ++ natToStr (⌊r * 100⌋.toNat) ++ "%)".toList])
  else if r ≥ 70/100 then
    (2, ["Good skill coverage (".toList ++ natToStr (⌊r * 100⌋.toNat) ++ "%)".toList])
  else if r ≥ 50/100 then
    (1, ["Moderate skill coverage (".toList ++ natToStr (⌊r * 100⌋.toNat) ++ "%)".toList])
  else (0, [])

/-- Excess-missing penalty: `min(10.0, (len(missing) - 5) * 1.5)` when
more than 5 required skills are missing. -/
def missing_part (missing : List Str) : ℚ × List Str :=
  if 5 < missing.length then
    let p : ℚ := min 10 (((missing.length : ℚ) - 5) * (3/2))
    (p, ["Many missing skills (-".toList ++ fmt1 p ++ " points)".toList])
  else (0, [])

/-- The "core" skill list: the first 5 ordered job skills, falling back to
5 job-set tokens when no ordering is available (`core = ordered[:5] if
ordered else list(job_skills)[:5]`; the iteration order of the Python set
in the fallback is unspecified, the embedding takes token order). -/
def core_skills (sm : List Str) (job : Job) (job_skills : List Str) : List Str :=
  if ordered_job_skills sm job ≠ [] then (ordered_job_skills sm job).take 5
  else job_skills.take 5

def NO_SKILLS_MSG : Str := "No skills specified for this job".toList

def HEADLINE_EXCELLENT : Str := "⭐ Excellent match!".toList
def HEADLINE_GOOD : Str := "✓ Good match".toList
def HEADLINE_MODERATE : Str := "○ Moderate match".toList

/-- `_calculate_match_score`: returns the clamped, 2-decimal score and the
ordered reason list, with the qualitative headline prepended.  Set
intersections/differences are represented on the job-token list (only
cardinality, membership and sorted views are consumed, all independent of
the representation order).  The `user` row itself contributes nothing
beyond its existence (see `UserRec`). -/
def calculate_match_score (sm : List Str) (user_skills : List Str) (job : Job)
    (user : UserRec) : ℚ × List Str :=
  let job_skills := get_job_skills sm job
  if job_skills = [] then (0, [NO_SKILLS_MSG])
  else
    let matched := job_skills.filter (· ∈ user_skills)
    let missing := job_skills.filter (· ∉ user_skills)
    let base_ratio := base_ratio_of matched job_skills
    let core := core_skills sm job job_skills
    let core_matched := core.filter (· ∈ matched)
    let core_missing := core.filter (· ∉ matched)
    let related := find_related_skills user_skills missing
    let loc := location_part job
    let exp := experience_part job user_skills.length
    let cov := coverage_part base_ratio
    let mp := missing_part missing
    let raw : ℚ := base_ratio * 60 + core_bonus core core_matched -
      core_penalty core core_missing + related_add related + loc.1 + exp.1 + cov.1 - mp.1
    let reasons : List Str :=
      (if matched ≠ [] then
        ["Matching skills: ".toList ++ joinComma ((sortStr matched).take 5)] else [])
      ++ (if core ≠ [] ∧ core_missing ≠ [] then
        ["Missing core skills: ".toList ++ joinComma ((sortStr core_missing).take 4)] else [])
      ++ (if core ≠ [] ∧ core_matched ≠ [] then
        ["Core skills matched: ".toList ++ joinComma ((sortStr core_matched).take 4)] else [])
      ++ (if related ≠ [] then
        ["Related skills: ".toList ++ joinComma ((sortStr related).take 3)] else [])
      ++ loc.2 ++ exp.2 ++ cov.2 ++ mp.2
    let score := max 0 (min 100 (round2 raw))
    let reasons' :=
      if score ≥ 80 then HEADLINE_EXCELLENT :: reasons
      else if score ≥ 60 then HEADLINE_GOOD :: reasons
      else if score ≥ 40 then HEADLINE_MODERATE :: reasons
      else reasons
    (score, reasons')

/-! ### User skills (`_get_user_skills`) -/

/-- `_get_user_skills`: the user's `skills` rows, with any `github_`
prefix text removed, normalized, deduplicated, empties dropped. -/
def get_user_skills (db : DB) (uid : Nat) : List Str :=
  let rows := (db.skills.filter (fun p => p.1 = uid)).map Prod.snd
  (dedupKeepFirst ((rows.filter (· ≠ [])).map
    (fun n => norm_token (stripSub "github_".toList n)))).filter (· ≠ [])

/-! ### Persistence (`_save_matches`) as a transaction

`_save_matches` issues a DELETE of the user's rows and one INSERT per new
match inside one SQLAlchemy transaction, then commits; on any exception it
rolls back and re-raises.  The transaction is modelled as a list of steps
applied to a session state whose `committed` part only changes at the
commit step; a failure point aborts before its step, discards the pending
work and surfaces the error. -/

def toRow (uid : Nat) (e : MatchEntry) : MatchRow :=
  { user_id := uid, job_id := e.job_id, score := e.match_score }

structure TxState where
  committed : List MatchRow
  pending : List MatchRow

inductive TxStep where
  | stepDelete (uid : Nat)
  | stepInsert (r : MatchRow)
  | stepCommit

def applyTx (st : TxState) : TxStep → TxState
  | .stepDelete uid => { st with pending := st.pending.filter (fun r => r.user_id ≠ uid) }
  | .stepInsert r => { st with pending := st.pending ++ [r] }
  | .stepCommit => { st with committed := st.pending }

/-- The step list of one `_save_matches` call. -/
def saveSteps (uid : Nat) (entries : List MatchEntry) : List TxStep :=
  TxStep.stepDelete uid :: (entries.map (fun e => TxStep.stepInsert (toRow uid e))
    ++ [TxStep.stepCommit])

/-- `_save_matches` with an optional failure point: `some k` (with `k`
within the step list) models the storage layer raising at step `k`; the
handler rolls back and re-raises.  Returns (exception raised?, post-state). -/
def save_matches (db : DB) (uid : Nat) (entries : List MatchEntry)
    (failAt : Option Nat) : Bool × DB :=
  let steps := saveSteps uid entries
  let applied :=
    match failAt with
    | some k => if k < steps.length then steps.take k else steps
    | none => steps
  let raised :=
    match failAt with
    | some k => decide (k < steps.length)
    | none => false
  let st := applied.foldl applyTx { committed := db.matchRows, pending := db.matchRows }
  (raised, { db with matchRows := st.committed })

/-! ### The matching flow (`match_jobs_for_user`) -/

/-- The result dict built for one matched job. -/
def mkEntry (job : Job) (score : ℚ) (reasons : List Str) : MatchEntry :=
  { job_id := job.id, title := job.title, company := job.company,
    location := job.location, remote := job.remote, salary_min := job.salary_min,
    salary_max := job.salary_max, description := job.description,
    required_skills := job.required_skills, url := job.url,
    match_score := score, match_reasons := reasons, created_at := job.created_at }

/-- The pre-sort matched list: every job with a strictly positive score. -/
def scored_entries (sm : List Str) (user_skills : List Str) (jobs : List Job)
    (user : UserRec) : List MatchEntry :=
  jobs.filterMap (fun j =>
    let sr := calculate_match_score sm user_skills j user
    if 0 < sr.1 then some (mkEntry j sr.1 sr.2) else none)

/-- Python's stable `list.sort(key=lambda x: x['match_score'], reverse=True)`:
descending by score, entries of equal score keeping their list order. -/
def insertDesc (x : MatchEntry) : List MatchEntry → List MatchEntry
  | [] => [x]
  | y :: r => if y.match_score ≤ x.match_score then x :: y :: r else y :: insertDesc x r

def sort_desc (l : List MatchEntry) : List MatchEntry := l.foldr insertDesc []

/-- `match_jobs_for_user`: guards (unknown user, no skills, no jobs) return
an empty list without touching the store; otherwise score all jobs, keep
positive scores, sort, persist the top 50 and return the sorted list.  A
persistence failure propagates (`.error`). -/
def match_jobs_for_user (db : DB) (sm : List Str) (uid : Nat)
    (failAt : Option Nat) : Except Unit (List MatchEntry) × DB :=
  match db.users.find? (fun u => u.id = uid) with
  | none => (.ok [], db)
  | some user =>
      let user_skills := get_user_skills db uid
      if user_skills = [] then (.ok [], db)
      else if db.jobs = [] then (.ok [], db)
      else
        let sorted := sort_desc (scored_entries sm user_skills db.jobs user)
        let sv := save_matches db uid (sorted.take 50) failAt
        if sv.1 then (.error (), sv.2) else (.ok sorted, sv.2)

/-! ### The cache layer (`cache.py`)

The redis client is `Option` (`None` when the connection attempt failed at
module load time); each redis call and the JSON encode/decode may raise, which
is modelled with `Except`.  The public operations are total functions: no
error value escapes them. -/

structure RedisClient where
  getv : Str → Except Unit (Option Str)
  setex : Str → Nat → Str → Except Unit Bool

/-- `cache_get`: miss (`none`) when the client is absent, the read raises,
the key is unset or empty, or the JSON decode raises. -/
def cache_get {α : Type} (client : Option RedisClient)
    (jsonLoads : Str → Except Unit α) (key : Str) : Option α :=
  match client with
  | none => none
  | some c =>
      match c.getv key with
      | .error _ => none
      | .ok none => none
      | .ok (some v) =>
          if v = [] then none
          else
            match jsonLoads v with
            | .error _ => none
            | .ok x => some x

/-- `cache_set`: `false` when the client is absent or serialization or the
write raises; otherwise the backend's success flag. -/
def cache_set {α : Type} (client : Option RedisClient)
    (jsonDumps : α → Except Unit Str) (key : Str) (value : α) (ttl : Nat) : Bool :=
  match client with
  | none => false
  | some c =>
      match jsonDumps value with
      | .error _ => false
      | .ok s =>
          match c.setex key ttl s with
          | .error _ => false
          | .ok b => b

/-! ### Concrete instances used by the claims -/

def user0 : UserRec := { id := 1 }

/-- The user skill set of the spec's concrete scenario. -/
def scenario_skills : List Str := ["python".toList, "django".toList, "postgresql".toList]

/-- The job of the spec's concrete scenario: a required-skills text of five
tokens, no location or remote data, empty title and description. -/
def scenario_job : Job :=
  { id := 1, title := [], company := [], location := [], description := [],
    required_skills := "Python, Django, PostgreSQL, Docker, AWS".toList,
    remote := false, salary_min := none, salary_max := none, url := [], created_at := 0 }

/-- A job with empty `required_skills` and empty description. -/
def blank_job : Job :=
  { id := 2, title := [], company := [], location := [], description := [],
    required_skills := [], remote := false, salary_min := none, salary_max := none,
    url := [], created_at := 0 }

/-- A job whose `required_skills` tokenize to 2 tokens (python, django) but
whose description has a `requirements:` section: `_ordered_job_skills` then
appends the junk token "requirements erlang", putting a token that is not
a job skill into the core list. -/
def c6_job : Job :=
  { id := 3, title := [], company := [], location := [],
    description := "requirements: erlang".toList,
    required_skills := "Python, Django".toList,
    remote := false, salary_min := none, salary_max := none, url := [], created_at := 0 }

def c6_skills : List Str := ["python".toList, "django".toList]

/-- A job fully covered by `c6_full_skills` whose required skills are its
own core (no description). -/
def c6_full_job : Job :=
  { id := 4, title := [], company := [], location := [], description := [],
    required_skills := "Python, Django, Flask".toList,
    remote := false, salary_min := none, salary_max := none, url := [], created_at := 0 }

def c6_full_skills : List Str := ["python".toList, "django".toList, "flask".toList]

/-- Identical single-skill jobs, distinguished only by their id. -/
def c7_job (n : Nat) : Job :=
  { id := n, title := [], company := [], location := [], description := [],
    required_skills := "Python".toList,
    remote := false, salary_min := none, salary_max := none, url := [], created_at := 0 }

/-- A catalog that enumerates job 2 before job 1; both jobs get the same
score for user 1. -/
def c7_db : DB :=
  { users := [{ id := 1 }], skills := [(1, "python".toList)],
    jobs := [c7_job 2, c7_job 1], matchRows := [] }

/-- The ranked list `match_jobs_for_user` returns on `c7_db`. -/
def c7_out : List MatchEntry :=
  match (match_jobs_for_user c7_db [] 1 none).1 with
  | .ok l => l
  | .error _ => []

/-- A redis client all of whose operations raise. -/
def dead_client : RedisClient :=
  { getv := fun _ => .error (), setex := fun _ _ _ => .error () }

/-- The ordering the spec claims for the ranked list: score descending
with ties between equal scores broken by job identifier ascending.
(Stated from the spec's words, to be compared with what the code does.) -/
def spec_claimed_order (a b : MatchEntry) : Prop :=
  b.match_score < a.match_score ∨ (a.match_score = b.match_score ∧ a.job_id ≤ b.job_id)

instance : DecidableRel spec_claimed_order := fun a b =>
  inferInstanceAs (Decidable (_ ∨ _))

/-- Adjacent characters are not both spaces. -/
def spacedOK (a b : Char) : Prop := ¬(a = ' ' ∧ b = ' ')

instance : DecidableRel spacedOK := fun a b => inferInstanceAs (Decidable (¬_))

/-- A kernel-reducible decision procedure for `Chain' spacedOK` (the
library instance is defined by rewriting and does not reduce). -/
instance (priority := 1100) decSpacedChain : ∀ l : Str, Decidable (l.Chain' spacedOK)
  | [] => isTrue List.chain'_nil
  | [c] => isTrue (List.chain'_singleton c)
  | a :: b :: r =>
      haveI : Decidable ((b :: r).Chain' spacedOK) := decSpacedChain (b :: r)
      decidable_of_iff (spacedOK a b ∧ (b :: r).Chain' spacedOK) List.chain'_cons.symm

/-- The normal form produced by the `_norm_token` character pipeline:
only allowed characters, no two adjacent spaces, no leading or trailing
space. -/
def GoodStr (s : Str) : Prop :=
  (∀ c ∈ s, isAllowed c = true) ∧ s.Chain' spacedOK ∧
    s.head? ≠ some ' ' ∧ s.getLast? ≠ some ' '

instance : DecidablePred GoodStr := fun s =>
  inferInstanceAs (Decidable (_ ∧ _ ∧ _ ∧ _))

/-! ## Theorems -/

/-! ### Generic facts about the transaction model -/

theorem applyTx_committed_of_ne_commit (st : TxState) (s : TxStep)
    (h : s ≠ TxStep.stepCommit) : (applyTx st s).committed = st.committed := by
  cases s with
  | stepDelete uid => rfl
  | stepInsert r => rfl
  | stepCommit => exact absurd rfl h

theorem foldl_committed_of_no_commit (l : List TxStep) (st : TxState)
    (h : ∀ s ∈ l, s ≠ TxStep.stepCommit) :
    (l.foldl applyTx st).committed = st.committed := by
  induction l generalizing st with
  | nil => rfl
  | cons s r ih =>
      rw [List.foldl_cons, ih _ (fun t ht => h t (List.mem_cons_of_mem _ ht)),
        applyTx_committed_of_ne_commit st s (h s (List.mem_cons_self _ _))]

theorem foldl_inserts_commit (uid : Nat) (entries : List MatchEntry) (st : TxState) :
    ((entries.map (fun e => TxStep.stepInsert (toRow uid e)) ++ [TxStep.stepCommit]).foldl
        applyTx st).committed = st.pending ++ entries.map (toRow uid) := by
  induction entries generalizing st with
  | nil => simp [applyTx]
  | cons e es ih =>
      simp only [List.map_cons, List.cons_append, List.foldl_cons]
      rw [ih]
      simp [applyTx]

theorem foldl_saveSteps_committed (db : DB) (uid : Nat) (entries : List MatchEntry) :
    ((saveSteps uid entries).foldl applyTx
        { committed := db.matchRows, pending := db.matchRows }).committed =
      db.matchRows.filter (fun r => r.user_id ≠ uid) ++ entries.map (toRow uid) := by
  unfold saveSteps
  simp only [List.foldl_cons]
  rw [show applyTx { committed := db.matchRows, pending := db.matchRows }
        (TxStep.stepDelete uid) =
      { committed := db.matchRows,
        pending := db.matchRows.filter (fun r => r.user_id ≠ uid) } from rfl]
  rw [foldl_inserts_commit]

/-- Success path of `_save_matches`: the user's rows replaced, everything
else untouched. -/
theorem save_matches_ok (db : DB) (uid : Nat) (entries : List MatchEntry) :
    save_matches db uid entries none =
      (false, { db with matchRows :=
        db.matchRows.filter (fun r => r.user_id ≠ uid) ++ entries.map (toRow uid) }) := by
  simp only [save_matches]
  rw [foldl_saveSteps_committed]

/-- A failure point beyond the step list never fires: the call succeeds. -/
theorem save_matches_some_ge (db : DB) (uid : Nat) (entries : List MatchEntry) (k : Nat)
    (hk : ¬ k < (saveSteps uid entries).length) :
    save_matches db uid entries (some k) =
      (false, { db with matchRows :=
        db.matchRows.filter (fun r => r.user_id ≠ uid) ++ entries.map (toRow uid) }) := by
  unfold save_matches
  simp only [if_neg hk]
  rw [foldl_saveSteps_committed]
  simp [decide_eq_false hk]

theorem saveSteps_eq (uid : Nat) (entries : List MatchEntry) :
    saveSteps uid entries =
      (TxStep.stepDelete uid :: entries.map (fun e => TxStep.stepInsert (toRow uid e)))
        ++ [TxStep.stepCommit] := by
  simp [saveSteps]

theorem length_saveSteps (uid : Nat) (entries : List MatchEntry) :
    (saveSteps uid entries).length = entries.length + 2 := by
  simp [saveSteps]

/-- Failure path of `_save_matches`: any abort before the commit leaves the
committed rows untouched. -/
theorem save_matches_fail (db : DB) (uid : Nat) (entries : List MatchEntry) (k : Nat)
    (hk : k < (saveSteps uid entries).length) :
    save_matches db uid entries (some k) = (true, db) := by
  have hnc : ∀ s ∈ (saveSteps uid entries).take k, s ≠ TxStep.stepCommit := by
    intro s hs
    have hk' : k ≤ (TxStep.stepDelete uid ::
        entries.map (fun e => TxStep.stepInsert (toRow uid e))).length := by
      rw [length_saveSteps] at hk
      simp only [List.length_cons, List.length_map]
      omega
    rw [saveSteps_eq, List.take_append_of_le_length hk'] at hs
    have hs' : s ∈ TxStep.stepDelete uid ::
        entries.map (fun e => TxStep.stepInsert (toRow uid e)) :=
      (List.take_sublist _ _).subset hs
    rcases List.mem_cons.mp hs' with h | h
    · subst h; intro hc; cases hc
    · rcases List.mem_map.mp h with ⟨e, _, he⟩
      subst he; intro hc; cases hc
  unfold save_matches
  simp only [if_pos hk]
  rw [foldl_committed_of_no_commit _ _ hnc]
  simp [decide_eq_true hk]

/-- C2: `save_matches` has replace semantics — after saving `R1` and then
`R2` for a user, exactly the rows of `R2` are persisted for that user —
and it is idempotent: saving the same list `R` twice leaves the state of
the first save unchanged (no duplication). -/
theorem C2_save_replace_idempotent (db : DB) (uid : Nat) (R1 R2 R : List MatchEntry) :
    ((save_matches (save_matches db uid R1 none).2 uid R2 none).2.matchRows.filter
        (fun r => r.user_id = uid) = R2.map (toRow uid))
    ∧ (save_matches (save_matches db uid R none).2 uid R none).2 =
        (save_matches db uid R none).2 := by
  constructor
  · rw [save_matches_ok db uid R1]
    rw [save_matches_ok]
    simp only [List.filter_append, List.filter_filter, List.filter_map]
    simp [toRow, Function.comp_def]
  · rw [save_matches_ok db uid R]
    rw [save_matches_ok]
    simp only [List.filter_append, List.filter_filter, List.filter_map]
    simp [toRow, Function.comp_def]

/-- C3: `_save_matches` is transactional.  Without a failure the user's
rows are exactly replaced; a failure at any point of the delete+insert
+commit sequence surfaces the error (first component `true`) and leaves
the previously persisted state completely intact — no partial or mixed
row set is ever observable. -/
theorem C3_save_transactional (db : DB) (uid : Nat) (entries : List MatchEntry) (k : Nat) :
    save_matches db uid entries none =
      (false, { db with matchRows :=
        db.matchRows.filter (fun r => r.user_id ≠ uid) ++ entries.map (toRow uid) })
    ∧ save_matches db uid entries (some k) =
      (if k < entries.length + 2 then (true, db)
       else save_matches db uid entries none) := by
  refine ⟨save_matches_ok db uid entries, ?_⟩
  by_cases hk : k < entries.length + 2
  · rw [if_pos hk]
    exact save_matches_fail db uid entries k (by rw [length_saveSteps]; exact hk)
  · rw [if_neg hk, save_matches_ok]
    exact save_matches_some_ge db uid entries k (by rw [length_saveSteps]; exact hk)

/-! ### The spec's concrete scoring scenario -/

/-- C1: on the concrete scenario — user skills {python, django, postgresql},
job required_skills "Python, Django, PostgreSQL, Docker, AWS" — the scoring
function returns exactly 41.8 (= 209/5 = 36 base + 10.8 core bonus − 6.0
core penalty + 1 coverage bonus) and the headline reason is the
"Moderate match" variant.  (The `aws` token is alias-normalized to
`amazon web services`, which the relations table does not key, so there is
no related-skill bonus.) -/
theorem C1_concrete_scenario :
    calculate_match_score [] scenario_skills scenario_job user0 =
      (209/5,
       [ HEADLINE_MODERATE,
         "Matching skills: django, postgresql, python".toList,
         "Missing core skills: amazon web services, docker".toList,
         "Core skills matched: django, postgresql, python".toList,
         "Moderate skill coverage (60%)".toList ]) := by
  with_unfolding_all decide

/-! ### Degenerate jobs (no extractable skills) -/

/-- C5: when no skills can be extracted for a job (empty tokenization and
no vocabulary fallback hit), the score is exactly 0 with the single reason
"No skills specified for this job", with no further computation. -/
theorem C5_no_job_skills_zero (sm us : List Str) (job : Job) (user : UserRec)
    (h : get_job_skills sm job = []) :
    calculate_match_score sm us job user = (0, [NO_SKILLS_MSG]) := by
  simp [calculate_match_score, h]

theorem C5_no_job_skills_zero_witness :
    get_job_skills [] blank_job = [] ∧
    calculate_match_score [] [] blank_job user0 = (0, [NO_SKILLS_MSG]) :=
  ⟨by with_unfolding_all decide,
   C5_no_job_skills_zero [] [] blank_job user0 (by with_unfolding_all decide)⟩

/-! ### Score bounds -/

theorem clamp_round_props (q : ℚ) :
    0 ≤ max 0 (min 100 (round2 q)) ∧ max 0 (min 100 (round2 q)) ≤ 100 ∧
      ∃ n : ℤ, max 0 (min 100 (round2 q)) * 100 = n := by
  refine ⟨le_max_left _ _, max_le (by norm_num) (min_le_left _ _), ?_⟩
  rcases max_choice (0 : ℚ) (min 100 (round2 q)) with h | h
  · exact ⟨0, by rw [h]; norm_num⟩
  · rcases min_choice (100 : ℚ) (round2 q) with h2 | h2
    · exact ⟨10000, by rw [h, h2]; norm_num⟩
    · refine ⟨roundHalfEven (q * 100), ?_⟩
      rw [h, h2]
      unfold round2
      rw [div_mul_cancel₀]
      norm_num

/-- The final score is either the early-return 0 or a clamped, rounded
value. -/
theorem score_shape (sm us : List Str) (job : Job) (user : UserRec) :
    (calculate_match_score sm us job user).1 = 0 ∨
      ∃ q : ℚ, (calculate_match_score sm us job user).1 = max 0 (min 100 (round2 q)) := by
  by_cases h : get_job_skills sm job = []
  · left; simp [calculate_match_score, h]
  · right
    simp only [calculate_match_score, if_neg h]
    exact ⟨_, rfl⟩

/-- C4: for every skill vocabulary, user skill set, job record and user
context, the returned score lies in [0, 100] and is an integer multiple of
1/100 (i.e. rounded to 2 decimal places). -/
theorem C4_score_in_range (sm us : List Str) (job : Job) (user : UserRec) :
    0 ≤ (calculate_match_score sm us job user).1 ∧
    (calculate_match_score sm us job user).1 ≤ 100 ∧
    ∃ n : ℤ, (calculate_match_score sm us job user).1 * 100 = n := by
  rcases score_shape sm us job user with h | ⟨q, h⟩
  · rw [h]
    exact ⟨le_refl 0, by norm_num, ⟨0, by norm_num⟩⟩
  · rw [h]
    exact clamp_round_props q

/-! ### Cache degradation -/

/-- C9: when the backing store is unavailable (no client) or every cache
operation raises internally, every read behaves as a miss (`none`) and
every write behaves as a failed no-op (`false`).  No error can propagate:
`cache_get`/`cache_set` are total functions into `Option`/`Bool`. -/
theorem C9_cache_degrades (α : Type) (client : Option RedisClient)
    (jsonLoads : Str → Except Unit α) (jsonDumps : α → Except Unit Str)
    (key : Str) (value : α) (ttl : Nat)
    (h : client = none ∨ ∃ c, client = some c ∧ (∀ k, c.getv k = .error ()) ∧
      (∀ k t s, c.setex k t s = .error ())) :
    cache_get client jsonLoads key = none ∧
    cache_set client jsonDumps key value ttl = false := by
  rcases h with h | ⟨c, hc, hg, hs⟩
  · subst h; exact ⟨rfl, rfl⟩
  · subst hc
    constructor
    · simp [cache_get, hg key]
    · simp only [cache_set]
      cases hd : jsonDumps value with
      | error e => rfl
      | ok s => simp [hs key ttl s]

theorem C9_cache_degrades_witness :
    cache_get (some dead_client) (fun s => Except.ok s) "user_matches:1".toList = none ∧
    cache_set (some dead_client) (fun s => Except.ok s) "user_matches:1".toList
      "[]".toList 21600 = false :=
  C9_cache_degrades Str (some dead_client) _ _ _ _ _
    (Or.inr ⟨dead_client, rfl, fun _ => rfl, fun _ _ _ => rfl⟩)

/-! ### The stable descending sort -/

theorem mem_insertDesc (a x : MatchEntry) (l : List MatchEntry) :
    a ∈ insertDesc x l ↔ a = x ∨ a ∈ l := by
  induction l with
  | nil => simp [insertDesc]
  | cons y r ih =>
      by_cases h : y.match_score ≤ x.match_score
      · simp [insertDesc, if_pos h]
      · simp only [insertDesc, if_neg h, List.mem_cons, ih]
        tauto

theorem mem_sort_desc (a : MatchEntry) (l : List MatchEntry) :
    a ∈ sort_desc l ↔ a ∈ l := by
  induction l with
  | nil => simp [sort_desc]
  | cons x t ih =>
      show a ∈ insertDesc x (sort_desc t) ↔ _
      rw [mem_insertDesc, ih, List.mem_cons]

theorem pairwise_insertDesc (x : MatchEntry) (l : List MatchEntry)
    (h : l.Pairwise (fun a b => b.match_score ≤ a.match_score)) :
    (insertDesc x l).Pairwise (fun a b => b.match_score ≤ a.match_score) := by
  induction l with
  | nil => simp [insertDesc]
  | cons y r ih =>
      rw [List.pairwise_cons] at h
      obtain ⟨hy, hr⟩ := h
      by_cases hc : y.match_score ≤ x.match_score
      · rw [insertDesc, if_pos hc, List.pairwise_cons]
        refine ⟨?_, List.pairwise_cons.mpr ⟨hy, hr⟩⟩
        intro z hz
        rcases List.mem_cons.mp hz with rfl | hz'
        · exact hc
        · exact le_trans (hy z hz') hc
      · rw [insertDesc, if_neg hc, List.pairwise_cons]
        refine ⟨?_, ih hr⟩
        intro z hz
        rcases (mem_insertDesc z x r).mp hz with rfl | hz'
        · exact le_of_lt (lt_of_not_le hc)
        · exact hy z hz'

theorem sort_desc_pairwise (l : List MatchEntry) :
    (sort_desc l).Pairwise (fun a b => b.match_score ≤ a.match_score) := by
  induction l with
  | nil => simp [sort_desc]
  | cons x t ih => exact pairwise_insertDesc x (sort_desc t) ih

theorem filter_insertDesc (x : MatchEntry) (l : List MatchEntry) (q : ℚ) :
    (insertDesc x l).filter (fun e => e.match_score = q) =
      if x.match_score = q then x :: l.filter (fun e => e.match_score = q)
      else l.filter (fun e => e.match_score = q) := by
  induction l with
  | nil => by_cases hx : x.match_score = q <;> simp [insertDesc, List.filter_cons, hx]
  | cons y r ih =>
      by_cases hc : y.match_score ≤ x.match_score
      · rw [insertDesc, if_pos hc]
        by_cases hx : x.match_score = q <;> simp [List.filter_cons, hx]
      · rw [insertDesc, if_neg hc]
        by_cases hx : x.match_score = q
        · have hy : ¬ y.match_score = q := by
            intro hyq
            exact hc (by rw [hyq, hx])
          simp [List.filter_cons, ih, hx, hy]
        · simp [List.filter_cons, ih, hx]

/-- Stability of the sort: the entries of any fixed score appear in the
sorted output exactly in their input order. -/
theorem sort_desc_filter (l : List MatchEntry) (q : ℚ) :
    (sort_desc l).filter (fun e => e.match_score = q) =
      l.filter (fun e => e.match_score = q) := by
  induction l with
  | nil => simp [sort_desc]
  | cons x t ih =>
      show (insertDesc x (sort_desc t)).filter _ = _
      rw [filter_insertDesc, ih]
      by_cases hx : x.match_score = q
      · simp [List.filter_cons, hx]
      · simp [List.filter_cons, hx]

/-! ### Positive scores only, in the output and in the store -/

theorem mem_scored_entries (sm us : List Str) (jobs : List Job) (user : UserRec)
    (e : MatchEntry) (he : e ∈ scored_entries sm us jobs user) : 0 < e.match_score := by
  unfold scored_entries at he
  rcases List.mem_filterMap.mp he with ⟨j, _, hfe⟩
  dsimp at hfe
  split at hfe
  · cases hfe
    simpa [mkEntry] using by assumption
  · cases hfe

/-- C10: `match_jobs_for_user` only returns entries with score strictly
greater than 0, and (given that the previously persisted rows already
satisfy it) every persisted row after the call has score > 0 — jobs
scoring 0, including jobs with no extractable skills, never appear in the
output or in the store.  This holds on every path, including early
returns and a persistence failure (which rolls back). -/
theorem C10_positive_scores (db : DB) (sm : List Str) (uid : Nat) (failAt : Option Nat)
    (hprev : ∀ r ∈ db.matchRows, 0 < r.score) :
    (∀ l, (match_jobs_for_user db sm uid failAt).1 = Except.ok l →
        ∀ e ∈ l, 0 < e.match_score) ∧
    (∀ r ∈ (match_jobs_for_user db sm uid failAt).2.matchRows, 0 < r.score) := by
  have hsorted : ∀ user e, e ∈ sort_desc (scored_entries sm (get_user_skills db uid)
      db.jobs user) → 0 < e.match_score := by
    intro user e he
    exact mem_scored_entries _ _ _ _ _ ((mem_sort_desc e _).mp he)
  rcases hfind : db.users.find? (fun u => u.id = uid) with _ | user <;>
    simp only [match_jobs_for_user, hfind]
  · refine ⟨?_, hprev⟩
    intro l hl e he
    cases hl
    cases he
  · by_cases hus : get_user_skills db uid = []
    · simp only [if_pos hus]
      refine ⟨?_, hprev⟩
      intro l hl e he
      cases hl
      cases he
    · simp only [if_neg hus]
      by_cases hjobs : db.jobs = []
      · simp only [if_pos hjobs]
        refine ⟨?_, hprev⟩
        intro l hl e he
        cases hl
        cases he
      · simp only [if_neg hjobs]
        have hreplaced : ∀ r ∈ db.matchRows.filter (fun r => r.user_id ≠ uid) ++
            ((sort_desc (scored_entries sm (get_user_skills db uid) db.jobs user)).take
              50).map (toRow uid), 0 < r.score := by
          intro r hr
          rcases List.mem_append.mp hr with hr | hr
          · exact hprev r (List.mem_filter.mp hr).1
          · rcases List.mem_map.mp hr with ⟨e, he, rfl⟩
            exact hsorted user e ((List.take_sublist _ _).subset he)
        rcases failAt with _ | k
        · rw [save_matches_ok]
          refine ⟨?_, hreplaced⟩
          intro l hl e he
          cases hl
          exact hsorted user e he
        · by_cases hk : k < (saveSteps uid ((sort_desc (scored_entries sm
              (get_user_skills db uid) db.jobs user)).take 50)).length
          · rw [save_matches_fail _ _ _ _ hk]
            refine ⟨?_, hprev⟩
            intro l hl
            cases hl
          · rw [save_matches_some_ge _ _ _ _ hk]
            refine ⟨?_, hreplaced⟩
            intro l hl e he
            cases hl
            exact hsorted user e he

theorem C10_positive_scores_witness :
    (∀ r ∈ (c7_db).matchRows, 0 < r.score) ∧
    (∀ l, (match_jobs_for_user c7_db [] 1 none).1 = Except.ok l →
        ∀ e ∈ l, 0 < e.match_score) ∧
    (∀ r ∈ (match_jobs_for_user c7_db [] 1 none).2.matchRows, 0 < r.score) :=
  ⟨fun r hr => absurd hr (List.not_mem_nil r),
   (C10_positive_scores c7_db [] 1 none (fun r hr => absurd hr (List.not_mem_nil r))).1,
   (C10_positive_scores c7_db [] 1 none (fun r hr => absurd hr (List.not_mem_nil r))).2⟩

/-! ### Ordering of the ranked list -/

/-- C7 (amended): on the non-degenerate path (user found, non-empty skill
set, non-empty catalog) the returned ranked list is the match entries
sorted by score descending with a stable sort: entries of equal score keep
the job-catalog enumeration order.  The output is a pure function of the
user's skill set and the job list; ties are NOT re-ordered by job id. -/
theorem C7_sorted_stable (db : DB) (sm : List Str) (uid : Nat) (user : UserRec)
    (hu : db.users.find? (fun u => u.id = uid) = some user)
    (hs : get_user_skills db uid ≠ [])
    (hj : db.jobs ≠ []) :
    (match_jobs_for_user db sm uid none).1 =
        Except.ok (sort_desc (scored_entries sm (get_user_skills db uid) db.jobs user))
    ∧ (sort_desc (scored_entries sm (get_user_skills db uid) db.jobs user)).Pairwise
        (fun a b => b.match_score ≤ a.match_score)
    ∧ ∀ q : ℚ,
        (sort_desc (scored_entries sm (get_user_skills db uid) db.jobs user)).filter
            (fun e => e.match_score = q) =
          (scored_entries sm (get_user_skills db uid) db.jobs user).filter
            (fun e => e.match_score = q) := by
  refine ⟨?_, sort_desc_pairwise _, fun q => sort_desc_filter _ q⟩
  simp only [match_jobs_for_user, hu, if_neg hs, if_neg hj, save_matches_ok]
  simp

theorem C7_sorted_stable_witness :
    c7_db.users.find? (fun u => u.id = 1) = some { id := 1 } ∧
    get_user_skills c7_db 1 ≠ [] ∧ c7_db.jobs ≠ [] ∧
    (match_jobs_for_user c7_db [] 1 none).1 =
      Except.ok (sort_desc (scored_entries [] (get_user_skills c7_db 1) c7_db.jobs
        { id := 1 })) :=
  ⟨by with_unfolding_all decide, by with_unfolding_all decide, by with_unfolding_all decide,
   (C7_sorted_stable c7_db [] 1 { id := 1 } (by with_unfolding_all decide)
     (by with_unfolding_all decide) (by with_unfolding_all decide)).1⟩

/-- C7 counterexample: the claim's tie-break ("ties broken by job
identifier ascending") fails on the code.  On `c7_db` (catalog order: job
2 then job 1, equal scores 82) the output order is [2, 1] — the stable
sort keeps catalog order for ties and never consults the job id. -/
theorem C7_counterexample :
    (match_jobs_for_user c7_db [] 1 none).1.isOk = true ∧
    c7_out.map (fun e => e.job_id) = [2, 1] ∧
    c7_out.map (fun e => e.match_score) = [82, 82] ∧
    ¬ c7_out.Pairwise spec_claimed_order := by
  with_unfolding_all decide

/-! ### A floor for fully covered jobs -/

theorem roundHalfEven_ge (p : ℚ) : p - 1/2 ≤ (roundHalfEven p : ℚ) := by
  have hfl := Int.floor_le p
  have hfl2 := Int.lt_floor_add_one p
  unfold roundHalfEven
  split_ifs with h1 h2 h3 <;> push_cast <;> linarith

theorem round2_ge (q : ℚ) : q - 1/200 ≤ round2 q := by
  have h := roundHalfEven_ge (q * 100)
  unfold round2
  rw [le_div_iff (by norm_num : (0:ℚ) < 100)]
  linarith

theorem final_ge_of_raw (q : ℚ) (h : 80 ≤ q) : 78 ≤ max 0 (min 100 (round2 q)) := by
  have h1 : (78 : ℚ) ≤ round2 q := by
    have := round2_ge q
    linarith
  exact le_trans (le_min (by norm_num) h1) (le_max_right _ _)

theorem related_add_nonneg (l : List Str) : 0 ≤ related_add l := by
  unfold related_add
  split_ifs
  · exact le_min (by norm_num) (by positivity)
  · exact le_refl 0

theorem ite_fst_le {γ : Type} (c : Prop) [Decidable c] (x : ℚ) (a b : ℚ × γ)
    (ha : x ≤ a.1) (hb : x ≤ b.1) : x ≤ (if c then a else b).1 := by
  split_ifs <;> assumption

theorem location_part_nonneg (job : Job) : 0 ≤ (location_part job).1 := by
  unfold location_part
  dsimp only
  apply ite_fst_le
  · apply ite_fst_le
    · norm_num
    · apply ite_fst_le <;> norm_num
  · norm_num

theorem experience_part_ge (job : Job) (n : Nat) : -2 ≤ (experience_part job n).1 := by
  unfold experience_part
  dsimp only
  apply ite_fst_le
  · apply ite_fst_le <;> norm_num
  · apply ite_fst_le
    · apply ite_fst_le <;> norm_num
    · apply ite_fst_le <;> norm_num

theorem coverage_part_one : (coverage_part 1).1 = 4 := by
  unfold coverage_part
  rw [if_pos (by norm_num)]

theorem missing_part_nil : (missing_part []).1 = 0 := by
  unfold missing_part
  norm_num

theorem core_skills_ne_nil (sm : List Str) (job : Job) (js : List Str) (h : js ≠ []) :
    core_skills sm job js ≠ [] := by
  unfold core_skills
  split_ifs with ho
  · simpa [List.take_eq_nil_iff] using ho
  · simpa [List.take_eq_nil_iff] using h

theorem base_ratio_full (js : List Str) (h : js ≠ []) : base_ratio_of js js = 1 := by
  unfold base_ratio_of
  have hlen : 0 < js.length := List.length_pos.mpr h
  have h1 : (1 : ℚ) ≤ js.length := by exact_mod_cast hlen
  rw [max_eq_left h1, div_self (ne_of_gt (by exact_mod_cast hlen))]

theorem core_bonus_full (core : List Str) (h : core ≠ []) : core_bonus core core = 18 := by
  unfold core_bonus
  rw [if_pos h, div_self, one_mul]
  have : 0 < core.length := List.length_pos.mpr h
  exact_mod_cast this.ne'

/-- C6 (amended): if the job's extracted skills are non-empty, every job
skill is among the user's skills, and the code's core-skill list (first 5
ordered skills, possibly including description-derived tokens) is fully
covered by the matched set, then the score is at least 78.
(Floor: 60 base + 18 core bonus − at most 2 experience penalty + 4
coverage bonus = 80, then rounding can lose at most 1/200.) -/
theorem C6_superset_floor (sm us : List Str) (job : Job) (user : UserRec)
    (hne : get_job_skills sm job ≠ [])
    (hsub : ∀ s ∈ get_job_skills sm job, s ∈ us)
    (hcore : ∀ c ∈ core_skills sm job (get_job_skills sm job),
        c ∈ (get_job_skills sm job).filter (· ∈ us)) :
    78 ≤ (calculate_match_score sm us job user).1 := by
  have hmatched : (get_job_skills sm job).filter (· ∈ us) = get_job_skills sm job :=
    List.filter_eq_self.mpr (fun s hs => by simpa using hsub s hs)
  have hmissing : (get_job_skills sm job).filter (· ∉ us) = [] := by
    rw [List.filter_eq_nil_iff]
    intro s hs
    simpa using hsub s hs
  have hcore' : ∀ c ∈ core_skills sm job (get_job_skills sm job), c ∈ get_job_skills sm job :=
    fun c hc => hmatched ▸ hcore c hc
  have hcm : (core_skills sm job (get_job_skills sm job)).filter
      (· ∈ get_job_skills sm job) = core_skills sm job (get_job_skills sm job) :=
    List.filter_eq_self.mpr (fun c hc => by simpa using hcore' c hc)
  have hcmiss : (core_skills sm job (get_job_skills sm job)).filter
      (· ∉ get_job_skills sm job) = [] := by
    rw [List.filter_eq_nil_iff]
    intro c hc
    simpa using hcore' c hc
  simp only [calculate_match_score, if_neg hne]
  apply final_ge_of_raw
  rw [hmatched, hmissing, hcm, hcmiss, base_ratio_full _ hne,
    core_bonus_full _ (core_skills_ne_nil sm job _ hne), coverage_part_one, missing_part_nil]
  have hcp : core_penalty (core_skills sm job (get_job_skills sm job)) [] = 0 := by
    unfold core_penalty
    simp
  rw [hcp]
  have h1 := related_add_nonneg (find_related_skills us [])
  have h2 := location_part_nonneg job
  have h3 := experience_part_ge job us.length
  linarith

theorem C6_superset_floor_witness :
    (get_job_skills [] c6_full_job ≠ [] ∧
      (get_job_skills [] c6_full_job).all (· ∈ c6_full_skills) = true ∧
      (core_skills [] c6_full_job (get_job_skills [] c6_full_job)).all
        (· ∈ (get_job_skills [] c6_full_job).filter (· ∈ c6_full_skills)) = true) ∧
    78 ≤ (calculate_match_score [] c6_full_skills c6_full_job user0).1 :=
  ⟨by with_unfolding_all decide,
   C6_superset_floor [] c6_full_skills c6_full_job user0
     (by with_unfolding_all decide)
     (by with_unfolding_all decide)
     (by with_unfolding_all decide)⟩

/-- C6 counterexample: the claim as stated — superset of the tokenized
required skills alone implies score ≥ 78 — is false.  On `c6_job` the
user's skills {python, django} are a superset of the tokenized required
skills, yet `_ordered_job_skills` pulls the junk token
"requirements erlang" from the description into the core list, so a core
penalty applies and the score is 71 < 78. -/
theorem C6_counterexample :
    get_job_skills [] c6_job ≠ [] ∧
    (get_job_skills [] c6_job).all (· ∈ c6_skills) = true ∧
    (calculate_match_score [] c6_skills c6_job user0).1 = 71 ∧
    ¬ 78 ≤ (calculate_match_score [] c6_skills c6_job user0).1 := by
  with_unfolding_all decide

/-! ### Normalizer idempotence: character facts -/

theorem isAllowed_cases (c : Char) (h : isAllowed c = true) :
    (97 ≤ c.toNat ∧ c.toNat ≤ 122) ∨ (48 ≤ c.toNat ∧ c.toNat ≤ 57) ∨
      c = '+' ∨ c = '#' ∨ c = '.' ∨ c = '-' ∨ c = '/' ∨ c = ' ' := by
  simp [isAllowed, Bool.or_eq_true, Bool.and_eq_true, decide_eq_true_eq] at h
  tauto

theorem lowerChar_fix (c : Char) (h : isAllowed c = true) : lowerChar c = c := by
  rcases isAllowed_cases c h with ⟨h1, h2⟩ | ⟨h1, h2⟩ | rfl | rfl | rfl | rfl | rfl | rfl
  · unfold lowerChar
    rw [if_neg]
    omega
  · unfold lowerChar
    rw [if_neg]
    omega
  all_goals rfl

theorem pySpace_allowed_eq_space (c : Char) (h : isAllowed c = true)
    (hs : isPySpace c = true) : c = ' ' := by
  have hm : c ∈ [' ', '\t', '\n', '\r', '\x0b', '\x0c'] := by
    simpa [isPySpace, decide_eq_true_eq] using hs
  fin_cases hm
  · rfl
  all_goals exact absurd h (by decide)

theorem allowed_not_bullet (c : Char) (h : isAllowed c = true) : isBullet c = false := by
  cases hb : isBullet c
  · rfl
  · have hm : c ∈ BULLET_CHARS := by
      simpa [isBullet, decide_eq_true_eq] using hb
    fin_cases hm <;> exact absurd h (by decide)

theorem allowed_ne_amp (c : Char) (h : isAllowed c = true) : c ≠ '&' := by
  intro hc
  subst hc
  exact absurd h (by decide)

theorem map_id_of (f : Char → Char) (l : Str) (h : ∀ c ∈ l, f c = c) : l.map f = l := by
  induction l with
  | nil => rfl
  | cons c r ih =>
      rw [List.map_cons, h c (List.mem_cons_self _ _),
        ih (fun x hx => h x (List.mem_cons_of_mem _ hx))]

/-! ### Normalizer idempotence: each pipeline step fixes a good string -/

theorem dropWhile_pySpace_eq_self (s : Str) (hall : ∀ c ∈ s, isAllowed c = true)
    (hh : s.head? ≠ some ' ') : s.dropWhile isPySpace = s := by
  cases s with
  | nil => rfl
  | cons c r =>
      rw [List.dropWhile_cons, if_neg]
      intro hps
      have hc := pySpace_allowed_eq_space c (hall c (List.mem_cons_self _ _)) hps
      subst hc
      exact hh rfl

theorem pyStrip_eq_self (s : Str) (hall : ∀ c ∈ s, isAllowed c = true)
    (hh : s.head? ≠ some ' ') (hl : s.getLast? ≠ some ' ') : pyStrip s = s := by
  unfold pyStrip dropTrailing
  rw [dropWhile_pySpace_eq_self s hall hh]
  rw [dropWhile_pySpace_eq_self s.reverse
    (fun c hc => hall c (List.mem_reverse.mp hc))
    (by rwa [List.head?_reverse]), List.reverse_reverse]

theorem blankBullets_eq_self (s : Str) (hall : ∀ c ∈ s, isAllowed c = true) :
    blankBullets s = s := by
  unfold blankBullets
  apply map_id_of
  intro c hc
  rw [allowed_not_bullet c (hall c hc)]
  rfl

theorem expandAmp_eq_self (s : Str) (hall : ∀ c ∈ s, isAllowed c = true) :
    expandAmp s = s := by
  induction s with
  | nil => rfl
  | cons c r ih =>
      rw [expandAmp, if_neg (allowed_ne_amp c (hall c (List.mem_cons_self _ _))),
        ih (fun x hx => hall x (List.mem_cons_of_mem _ hx))]

theorem squashDisallowed_eq_self (s : Str) (hall : ∀ c ∈ s, isAllowed c = true) :
    squashDisallowed s = s := by
  unfold squashDisallowed
  apply map_id_of
  intro c hc
  rw [if_pos (hall c hc)]

theorem collapseSpaces_eq_self : ∀ s : Str, s.Chain' spacedOK → collapseSpaces s = s
  | [], _ => rfl
  | [c], _ => rfl
  | c1 :: c2 :: r, h => by
      have h12 : spacedOK c1 c2 := (List.chain'_cons.mp h).1
      rw [collapseSpaces, if_neg h12,
        collapseSpaces_eq_self (c2 :: r) (List.chain'_cons.mp h).2]

/-- A good string is a fixed point of the whole character pipeline. -/
theorem normPipeline_eq_self (s : Str) (hg : GoodStr s) : normPipeline s = s := by
  obtain ⟨hall, hchain, hh, hl⟩ := hg
  unfold normPipeline
  rw [map_id_of lowerChar s (fun c hc => lowerChar_fix c (hall c hc)),
    pyStrip_eq_self s hall hh hl, blankBullets_eq_self s hall, expandAmp_eq_self s hall,
    squashDisallowed_eq_self s hall, collapseSpaces_eq_self s hchain,
    pyStrip_eq_self s hall hh hl]

/-! ### Normalizer idempotence: the pipeline output is a good string -/

theorem squashDisallowed_allowed (t : Str) : ∀ c ∈ squashDisallowed t, isAllowed c = true := by
  intro c hc
  rcases List.mem_map.mp hc with ⟨x, _, hx⟩
  by_cases hax : isAllowed x = true
  · rw [← hx, if_pos hax]; exact hax
  · rw [← hx, if_neg hax]; decide

theorem collapseSpaces_subset : ∀ l : Str, ∀ c ∈ collapseSpaces l, c ∈ l
  | [], c, hc => hc
  | [a], c, hc => hc
  | c1 :: c2 :: r, c, hc => by
      by_cases h : c1 = ' ' ∧ c2 = ' '
      · rw [collapseSpaces, if_pos h] at hc
        exact List.mem_cons_of_mem _ (collapseSpaces_subset (c2 :: r) c hc)
      · rw [collapseSpaces, if_neg h] at hc
        rcases List.mem_cons.mp hc with rfl | hc'
        · exact List.mem_cons_self _ _
        · exact List.mem_cons_of_mem _ (collapseSpaces_subset (c2 :: r) c hc')

theorem collapseSpaces_head? : ∀ l : Str, (collapseSpaces l).head? = l.head?
  | [] => rfl
  | [c] => rfl
  | c1 :: c2 :: r => by
      by_cases h : c1 = ' ' ∧ c2 = ' '
      · rw [collapseSpaces, if_pos h, collapseSpaces_head? (c2 :: r)]
        simp [h.1, h.2]
      · rw [collapseSpaces, if_neg h]
        rfl

theorem collapseSpaces_chain' : ∀ l : Str, (collapseSpaces l).Chain' spacedOK
  | [] => List.chain'_nil
  | [c] => List.chain'_singleton c
  | c1 :: c2 :: r => by
      by_cases h : c1 = ' ' ∧ c2 = ' '
      · rw [collapseSpaces, if_pos h]
        exact collapseSpaces_chain' (c2 :: r)
      · rw [collapseSpaces, if_neg h]
        rw [List.chain'_cons']
        refine ⟨?_, collapseSpaces_chain' (c2 :: r)⟩
        intro b hb
        rw [collapseSpaces_head? (c2 :: r)] at hb
        cases hb
        exact h

theorem head?_dropWhile_false (p : Char → Bool) :
    ∀ l : Str, ∀ c, (l.dropWhile p).head? = some c → p c = false := by
  intro l
  induction l with
  | nil => intro c hc; cases hc
  | cons a r ih =>
      intro c hc
      rw [List.dropWhile_cons] at hc
      by_cases hp : p a = true
      · rw [if_pos hp] at hc
        exact ih c hc
      · rw [if_neg hp] at hc
        cases hc
        exact Bool.not_eq_true _ ▸ hp

theorem dropTrailing_prefix (l : Str) : dropTrailing l <+: l := by
  unfold dropTrailing
  have h := List.dropWhile_suffix (l := l.reverse) isPySpace
  have h2 := List.reverse_prefix.mpr h
  rwa [List.reverse_reverse] at h2

theorem prefix_head? (l1 l2 : Str) (h : l1 <+: l2) (c : Char) (hc : l1.head? = some c) :
    l2.head? = some c := by
  obtain ⟨t, rfl⟩ := h
  cases l1 with
  | nil => cases hc
  | cons a r => simpa using hc

theorem spacedOK_flip (a b : Char) (h : spacedOK a b) : spacedOK b a :=
  fun hh => h ⟨hh.2, hh.1⟩

theorem chain'_rev (l : Str) (h : l.Chain' spacedOK) : l.reverse.Chain' spacedOK :=
  List.chain'_reverse.mpr (h.imp (fun a b hab => spacedOK_flip a b hab))

/-- `pyStrip` of an all-allowed, space-collapsed string is good. -/
theorem pyStrip_good (u : Str) (hall : ∀ c ∈ u, isAllowed c = true)
    (hch : u.Chain' spacedOK) : GoodStr (pyStrip u) := by
  unfold pyStrip dropTrailing
  set w := u.dropWhile isPySpace with hw
  set v := w.reverse.dropWhile isPySpace with hv
  have hwsub : ∀ c ∈ w, c ∈ u := fun c hc => (List.dropWhile_sublist _).subset hc
  have hwch : w.Chain' spacedOK := hch.suffix (List.dropWhile_suffix _)
  have hvch : v.Chain' spacedOK := (chain'_rev w hwch).suffix (List.dropWhile_suffix _)
  refine ⟨?_, ?_, ?_, ?_⟩
  · intro c hc
    have h1 : c ∈ v := List.mem_reverse.mp hc
    have h2 : c ∈ w.reverse := (List.dropWhile_sublist _).subset h1
    exact hall c (hwsub c (List.mem_reverse.mp h2))
  · exact chain'_rev v hvch
  · intro hc
    have hpre : v.reverse <+: w := by
      have h := List.dropWhile_suffix (l := w.reverse) isPySpace
      have h2 := List.reverse_prefix.mpr h
      rwa [List.reverse_reverse] at h2
    have hhw : w.head? = some ' ' := prefix_head? _ _ hpre _ hc
    have hfalse := head?_dropWhile_false isPySpace u ' ' hhw
    exact absurd hfalse (by decide)
  · intro hc
    rw [← List.head?_reverse, List.reverse_reverse] at hc
    have hfalse := head?_dropWhile_false isPySpace w.reverse ' ' hc
    exact absurd hfalse (by decide)

/-- The whole character pipeline always produces a good string. -/
theorem normPipeline_good (s : Str) : GoodStr (normPipeline s) := by
  unfold normPipeline
  apply pyStrip_good
  · intro c hc
    exact squashDisallowed_allowed _ c (collapseSpaces_subset _ c hc)
  · exact collapseSpaces_chain' _

/-! ### Normalizer idempotence: the alias table -/

theorem lookupStr_mem {α : Type} (l : List (Str × α)) (s : Str) (v : α)
    (h : lookupStr l s = some v) : (s, v) ∈ l := by
  induction l with
  | nil => cases h
  | cons p r ih =>
      obtain ⟨k, w⟩ := p
      rw [lookupStr] at h
      by_cases hk : s = k
      · rw [if_pos hk] at h
        cases h
        subst hk
        exact List.mem_cons_self _ _
      · rw [if_neg hk] at h
        exact List.mem_cons_of_mem _ (ih h)

/-- Every alias value is already in normal form and is not itself an alias
key. -/
theorem alias_values_good : ∀ pr ∈ ALIASES, GoodStr pr.2 ∧ lookupStr ALIASES pr.2 = none := by
  decide

/-- C8: the skill normalizer is idempotent — `norm_token (norm_token x) =
norm_token x` for every string `x`; in particular no normalizer output
(including outputs produced by the alias table) is changed by a second
pass. -/
theorem C8_norm_token_idempotent (s : Str) :
    norm_token (norm_token s) = norm_token s := by
  unfold norm_token applyAlias
  cases hl : lookupStr ALIASES (normPipeline s) with
  | none =>
      simp only [hl, Option.getD_none]
      rw [normPipeline_eq_self (normPipeline s) (normPipeline_good s), hl]
      rfl
  | some v =>
      have hmem := lookupStr_mem _ _ _ hl
      have hv := alias_values_good (normPipeline s, v) hmem
      simp only [hl, Option.getD_some]
      rw [normPipeline_eq_self v hv.1, hv.2]
      rfl

end JobMatcher

